import Mathlib

/-!
Verification development for the EPCL safety-dashboard client
(`src/client/src/components/SafetyDashboard.tsx` and
`src/client/src/components/chat/ChatWidget.tsx`).

The TypeScript code is shallowly embedded: dynamic JSON-ish values become the
inductive `JVal`; JS numbers are modelled as `Int` (no claim in this
development exercises fractional values or NaN; where a JS numeric coercion
would produce NaN — `Number` of a truthy non-numeric value — the model yields
`0`, and no claim input reaches those cases); React state cells become fields
of explicit state records, and `setX` calls become record updates applied in
source order.
-/

namespace EPCL

/-- Dynamic JSON-like runtime values, as handled by the dashboard's parsers.
`undefined` models JavaScript `undefined` (absent property). Numbers are `Int`. -/
inductive JVal where
  | null
  | undefined
  | bool (b : Bool)
  | num (n : Int)
  | str (s : String)
  | arr (xs : List JVal)
  | obj (fields : List (String × JVal))

/-- JavaScript truthiness: `null`, `undefined`, `false`, `0` and `""` are
falsy; every other value (including empty arrays and objects) is truthy. -/
def JVal.truthy : JVal → Bool
  | .null => false
  | .undefined => false
  | .bool b => b
  | .num n => n ≠ 0
  | .str s => s ≠ ""
  | .arr _ => true
  | .obj _ => true

/-- Property access `v.k` (also covering optional chaining `v?.k`): objects
yield the named field or `undefined`; every other value yields `undefined`.
(In JS, property access on `null`/`undefined` throws, but every access in the
embedded code is behind a `!json` guard or `?.`, so the `undefined` result is
never observed ungated.) -/
def JVal.get : JVal → String → JVal
  | .obj fs, k => ((fs.find? (fun p => p.1 = k)).map (fun p => p.2)).getD .undefined
  | _, _ => .undefined

/-- Index access `v[i]`: arrays yield the element or `undefined`; strings
yield the one-character string; objects look the decimal key up; all other
values yield `undefined` (as in JS, where indexing a number is not an error). -/
def JVal.idx : JVal → Nat → JVal
  | .arr xs, i => xs.getD i .undefined
  | .str s, i =>
      if i < s.data.length then .str ⟨[s.data.getD i ' ']⟩ else .undefined
  | .obj fs, i => ((fs.find? (fun p => p.1 = toString i)).map (fun p => p.2)).getD .undefined
  | _, _ => .undefined

/-- Short-circuit `a || b` on JS values. -/
def JVal.orl (a b : JVal) : JVal := if a.truthy then a else b

/-- Numeric coercion of the idiom `Number(x || 0)` used throughout the
parsers: falsy values give `0`, numbers give themselves, `true` gives `1`.
Truthy non-numeric values (which coerce to NaN in JS) are modelled as `0`;
no claim input exercises them. -/
def JVal.numOr0 : JVal → Int
  | .num n => n
  | .bool true => 1
  | _ => 0

/-- Array test, modelling `Array.isArray`. -/
def JVal.isArr : JVal → Bool
  | .arr _ => true
  | _ => false

/-- Elements of an array value. Truthy non-array values (on which the source
would throw at `.map`) are modelled as empty; no claim input exercises them. -/
def JVal.asArr : JVal → List JVal
  | .arr xs => xs
  | _ => []

/-- String coercion `String(v)` (JS semantics on the shapes that occur:
strings unchanged, numbers printed, literals named; arrays join their
elements with commas, objects print as "[object Object]"). -/
def JVal.toStr : JVal → String
  | .null => "null"
  | .undefined => "undefined"
  | .bool true => "true"
  | .bool false => "false"
  | .num n => toString n
  | .str s => s
  | .arr xs => String.intercalate "," (xs.attach.map fun x => JVal.toStr x.1)
  | .obj _ => "[object Object]"
decreasing_by
  have h := List.sizeOf_lt_of_mem x.2
  simp only [JVal.arr.sizeOf_spec]
  omega

/-! ## Canonical chart models (the `type` declarations of SafetyDashboard.tsx) -/

/-- Model of `type KPI = { label: string; value: number; delta: number | null }`. -/
structure KPI where
  label : String
  value : Int
  delta : Option Int
deriving DecidableEq

/-- Model of `type SimpleDatum = { name: string; value: number }`; the `name`
is kept as the raw runtime value the parser pairs with the index. -/
structure SimpleDatum where
  name : JVal
  value : Int

/-- Model of `type TrendDatum = { month: string; value: number }`. -/
structure TrendDatum where
  month : String
  value : Int

/-- Model of `type GroupDatum = { name: string; [series]: number | string }`:
the dynamic series keys are an insertion-ordered association list, with
JS-object overwrite-in-place semantics provided by `objSet`. -/
structure GroupDatum where
  name : JVal
  series : List (String × Int)

/-- Model of `type HeatMatrix`. -/
structure HeatMatrix where
  x_labels : List String
  y_labels : List String
  values : List (List Int)
  min : Int
  max : Int
  title : Option String
deriving DecidableEq

/-- JS object assignment `row[key] = v`: replace in place when the key
exists, append otherwise. -/
def objSet : List (String × Int) → String → Int → List (String × Int)
  | [], k, v => [(k, v)]
  | (k0, v0) :: rest, k, v =>
      if k0 = k then (k0, v) :: rest else (k0, v0) :: objSet rest k v

/-! ## The four normalizers (SafetyDashboard.tsx, "Transform helpers") -/

/-- Embedding of `parseCategoryChart(json)`. -/
def parseCategoryChart (json : JVal) : List SimpleDatum :=
  if ¬json.truthy ∨ (json.get "error").truthy then []
  else
    let labels := ((json.get "labels").orl (.arr [])).asArr
    let data := ((((json.get "datasets").idx 0).get "data").orl (.arr [])).asArr
    (labels.enum.map fun p =>
      { name := p.2, value := ((data.getD p.1 .undefined).orl (.num 0)).numOr0 })

/-- Embedding of `parseStackedChart(json)`. -/
def parseStackedChart (json : JVal) : List GroupDatum :=
  if ¬json.truthy ∨ (json.get "error").truthy then []
  else
    let labels := ((json.get "labels").orl (.arr [])).asArr
    let datasets := ((json.get "datasets").orl (.arr [])).asArr
    (labels.enum.map fun p =>
      { name := p.2
        series := datasets.foldl (fun row ds =>
          let key := ((ds.get "label").orl (.str "series")).toStr
          objSet row key (((ds.get "data").idx p.1).orl (.num 0)).numOr0) [] })

/-- Embedding of `parseMonthlyTrends(json)`. -/
def parseMonthlyTrends (json : JVal) : List TrendDatum :=
  if ¬json.truthy ∨ (json.get "error").truthy then []
  else
    let labels := ((json.get "labels").orl (.arr [])).asArr
    let datasets := ((json.get "datasets").orl (.arr [])).asArr
    (labels.enum.map fun p =>
      { month := p.2.toStr
        value := datasets.foldl
          (fun sum ds => sum + (((ds.get "data").idx p.1).orl (.num 0)).numOr0) 0 })

/-- Embedding of `parseHeatmap(json)`; `Math.min(...flat)` / `Math.max(...flat)`
on the non-empty flattened matrix are folds with the head as seed. -/
def parseHeatmap (json : JVal) : HeatMatrix :=
  if ¬json.truthy ∨ (json.get "error").truthy then
    { x_labels := [], y_labels := [], values := [], min := 0, max := 0, title := none }
  else
    let x := if (json.get "x_labels").isArr
      then (json.get "x_labels").asArr.map (fun v => v.toStr) else []
    let y := if (json.get "y_labels").isArr
      then (json.get "y_labels").asArr.map (fun v => v.toStr) else []
    let valsRaw := if (json.get "values").isArr then (json.get "values").asArr else []
    let vals := valsRaw.map fun row =>
      if row.isArr then row.asArr.map (fun v => (v.orl (.num 0)).numOr0) else []
    let min0 : Int := match json.get "min" with | .num n => n | _ => 0
    let max0 : Int := match json.get "max" with | .num n => n | _ => 0
    let flat := vals.flatten
    let mm : Int × Int :=
      if ¬(json.get "min").truthy ∨ ¬(json.get "max").truthy then
        match flat with
        | [] => (min0, max0)
        | v :: vs => (vs.foldl Min.min v, vs.foldl Max.max v)
      else (min0, max0)
    { x_labels := x, y_labels := y, values := vals, min := mm.1, max := mm.2
      title := match json.get "title" with | .str s => some s | _ => none }

/-! ## Resource slots and the refresh cycle (SafetyDashboard.tsx, `refreshAll`) -/

/-- Model of `type ApiState<T> = { loading: boolean; error: string | null; data: T | null }`. -/
structure ApiState (T : Type) where
  loading : Bool
  error : Option String
  data : Option T

/-- Model of the seventeen chart slots plus the derived-KPI slot, one `useState`
cell each, in declaration order from `SafetyDashboard`. -/
structure DashState where
  kpis : ApiState (List KPI)
  entriesByCategory : ApiState (List SimpleDatum)
  incidentHazardTypes : ApiState (List SimpleDatum)
  monthlyTrends : ApiState (List TrendDatum)
  entriesByLocation : ApiState (List SimpleDatum)
  stackedEntriesByLocation : ApiState (List GroupDatum)
  typesByLocation : ApiState (List GroupDatum)
  proportionByLocation : ApiState (List SimpleDatum)
  statusByLocation : ApiState (List GroupDatum)
  heatmap : ApiState HeatMatrix
  incidentsTypes : ApiState (List SimpleDatum)
  incidentsTopLocations : ApiState (List SimpleDatum)
  hazardsMonthly : ApiState (List TrendDatum)
  hazardsByLocation : ApiState (List SimpleDatum)
  hazardsByRisk : ApiState (List SimpleDatum)
  hazardsByArea : ApiState (List SimpleDatum)
  hazardsHeatmap : ApiState HeatMatrix
  hazVsIncByDept : ApiState (List GroupDatum)

/-- Initial value of every slot: `{ loading: true, error: null, data: null }`. -/
def initialSlot {T : Type} : ApiState T := { loading := true, error := none, data := none }

/-- State at mount: every `useState` initializer is `initialSlot`. -/
def initialDashState : DashState :=
  { kpis := initialSlot, entriesByCategory := initialSlot
    incidentHazardTypes := initialSlot, monthlyTrends := initialSlot
    entriesByLocation := initialSlot, stackedEntriesByLocation := initialSlot
    typesByLocation := initialSlot, proportionByLocation := initialSlot
    statusByLocation := initialSlot, heatmap := initialSlot
    incidentsTypes := initialSlot, incidentsTopLocations := initialSlot
    hazardsMonthly := initialSlot, hazardsByLocation := initialSlot
    hazardsByRisk := initialSlot, hazardsByArea := initialSlot
    hazardsHeatmap := initialSlot, hazVsIncByDept := initialSlot }

/-- Functional updater `(s) => ({ ...s, loading: true, error: null })` used at
the head of `refreshAll`. -/
def markLoading {T : Type} (s : ApiState T) : ApiState T :=
  { s with loading := true, error := none }

/-- Head of `refreshAll` (lines 202–215): the fourteen `setX` calls that mark
slots loading, in source order. The four hazards-dedicated slots
(`hazardsByRisk`, `hazardsByArea`, `hazardsHeatmap`, `hazVsIncByDept`) are
absent from this block in the source. -/
def refreshAllStart (st : DashState) : DashState :=
  { st with
    kpis := markLoading st.kpis
    entriesByCategory := markLoading st.entriesByCategory
    incidentHazardTypes := markLoading st.incidentHazardTypes
    monthlyTrends := markLoading st.monthlyTrends
    entriesByLocation := markLoading st.entriesByLocation
    stackedEntriesByLocation := markLoading st.stackedEntriesByLocation
    typesByLocation := markLoading st.typesByLocation
    proportionByLocation := markLoading st.proportionByLocation
    statusByLocation := markLoading st.statusByLocation
    heatmap := markLoading st.heatmap
    incidentsTypes := markLoading st.incidentsTypes
    incidentsTopLocations := markLoading st.incidentsTopLocations
    hazardsMonthly := markLoading st.hazardsMonthly
    hazardsByLocation := markLoading st.hazardsByLocation }

/-- The seventeen JSON payloads of one fully successful `Promise.all`, in the
source's destructuring order. -/
structure FetchResults where
  byCatJson : JVal
  typesJson : JVal
  trendsJson : JVal
  byLocJson : JVal
  stackedLocJson : JVal
  typesLocJson : JVal
  propLocJson : JVal
  statusLocJson : JVal
  heatJson : JVal
  incTypesJson : JVal
  incTopLocJson : JVal
  hazMonthlyJson : JVal
  hazLocJson : JVal
  hazRiskJson : JVal
  hazAreaJson : JVal
  hazHeatmapJson : JVal
  hazVsIncJson : JVal

/-- KPI lookup `byCat?.find((d) => d.name?.toLowerCase() === t)?.value || 0`:
a non-string `name` short-circuits to a mismatch via optional chaining. -/
def kpiValue (byCat : List SimpleDatum) (t : String) : Int :=
  match byCat.find? (fun d => match d.name with | .str s => s.toLower = t | _ => false) with
  | some d => if d.value = 0 then 0 else d.value
  | none => 0

/-- Success arm of `refreshAll`: every slot is committed
`{ loading: false, error: null, data }` with the matching normalizer's
output, and KPIs are composed from the entries-by-category series with
`delta` set to `null`. -/
def refreshAllSuccess (r : FetchResults) (st : DashState) : DashState :=
  let byCat := parseCategoryChart r.byCatJson
  { st with
    entriesByCategory := ⟨false, none, some byCat⟩
    incidentHazardTypes := ⟨false, none, some (parseCategoryChart r.typesJson)⟩
    monthlyTrends := ⟨false, none, some (parseMonthlyTrends r.trendsJson)⟩
    entriesByLocation := ⟨false, none, some (parseCategoryChart r.byLocJson)⟩
    stackedEntriesByLocation := ⟨false, none, some (parseStackedChart r.stackedLocJson)⟩
    typesByLocation := ⟨false, none, some (parseStackedChart r.typesLocJson)⟩
    proportionByLocation := ⟨false, none, some (parseCategoryChart r.propLocJson)⟩
    statusByLocation := ⟨false, none, some (parseStackedChart r.statusLocJson)⟩
    heatmap := ⟨false, none, some (parseHeatmap r.heatJson)⟩
    incidentsTypes := ⟨false, none, some (parseCategoryChart r.incTypesJson)⟩
    incidentsTopLocations := ⟨false, none, some (parseCategoryChart r.incTopLocJson)⟩
    hazardsMonthly := ⟨false, none, some (parseMonthlyTrends r.hazMonthlyJson)⟩
    hazardsByLocation := ⟨false, none, some (parseCategoryChart r.hazLocJson)⟩
    hazardsByRisk := ⟨false, none, some (parseCategoryChart r.hazRiskJson)⟩
    hazardsByArea := ⟨false, none, some (parseCategoryChart r.hazAreaJson)⟩
    hazardsHeatmap := ⟨false, none, some (parseHeatmap r.hazHeatmapJson)⟩
    hazVsIncByDept := ⟨false, none, some (parseStackedChart r.hazVsIncJson)⟩
    kpis := ⟨false, none, some
      [ { label := "Incidents", value := kpiValue byCat "incidents", delta := none }
      , { label := "Hazards", value := kpiValue byCat "hazards", delta := none }
      , { label := "Audits", value := kpiValue byCat "audits", delta := none }
      , { label := "Inspections", value := kpiValue byCat "inspections", delta := none } ]⟩ }

/-- Functional updater `(s) => ({ ...s, loading: false, error: msg })` of the
catch arm: `data` is spread through unchanged. -/
def failSlot {T : Type} (msg : String) (s : ApiState T) : ApiState T :=
  { s with loading := false, error := some msg }

/-- Catch arm of `refreshAll`: all eighteen slots receive the same message via
the spread updater, in source order (the KPI slot last). -/
def refreshAllFailure (msg : String) (st : DashState) : DashState :=
  { st with
    entriesByCategory := failSlot msg st.entriesByCategory
    incidentHazardTypes := failSlot msg st.incidentHazardTypes
    monthlyTrends := failSlot msg st.monthlyTrends
    entriesByLocation := failSlot msg st.entriesByLocation
    stackedEntriesByLocation := failSlot msg st.stackedEntriesByLocation
    typesByLocation := failSlot msg st.typesByLocation
    proportionByLocation := failSlot msg st.proportionByLocation
    statusByLocation := failSlot msg st.statusByLocation
    heatmap := failSlot msg st.heatmap
    incidentsTypes := failSlot msg st.incidentsTypes
    incidentsTopLocations := failSlot msg st.incidentsTopLocations
    hazardsMonthly := failSlot msg st.hazardsMonthly
    hazardsByLocation := failSlot msg st.hazardsByLocation
    hazardsByRisk := failSlot msg st.hazardsByRisk
    hazardsByArea := failSlot msg st.hazardsByArea
    hazardsHeatmap := failSlot msg st.hazardsHeatmap
    hazVsIncByDept := failSlot msg st.hazVsIncByDept
    kpis := failSlot msg st.kpis }

/-- Observable view of one slot: its loading flag, its error, and whether it
holds data. -/
structure SlotView where
  loading : Bool
  error : Option String
  hasData : Bool
deriving DecidableEq

/-- View of an `ApiState`. -/
def viewOf {T : Type} (s : ApiState T) : SlotView :=
  { loading := s.loading, error := s.error, hasData := s.data.isSome }

/-- All eighteen slot views, in declaration order. -/
def slotViews (st : DashState) : List SlotView :=
  [ viewOf st.kpis, viewOf st.entriesByCategory, viewOf st.incidentHazardTypes
  , viewOf st.monthlyTrends, viewOf st.entriesByLocation
  , viewOf st.stackedEntriesByLocation, viewOf st.typesByLocation
  , viewOf st.proportionByLocation, viewOf st.statusByLocation
  , viewOf st.heatmap, viewOf st.incidentsTypes, viewOf st.incidentsTopLocations
  , viewOf st.hazardsMonthly, viewOf st.hazardsByLocation, viewOf st.hazardsByRisk
  , viewOf st.hazardsByArea, viewOf st.hazardsHeatmap, viewOf st.hazVsIncByDept ]

/-- One visible state transition of the synchronizer: the loading reset at the
head of `refreshAll`, or the settlement of the batched wait (success or
failure). -/
inductive DashStep : DashState → DashState → Prop
  | start (st : DashState) : DashStep st (refreshAllStart st)
  | success (r : FetchResults) (st : DashState) : DashStep st (refreshAllSuccess r st)
  | failure (msg : String) (st : DashState) : DashStep st (refreshAllFailure msg st)

/-- Dashboard states reachable from mount through refresh cycles. -/
inductive DashReachable : DashState → Prop
  | init : DashReachable initialDashState
  | step {st st' : DashState} : DashReachable st → DashStep st st' → DashReachable st'

/-! ## JSON.parse (platform collaborator used by the stream loop)

A total, fuel-bounded recursive-descent parser modelling the platform's
`JSON.parse` on the fragment the streaming protocol exercises: objects,
arrays, double-quoted strings with the single-character escapes, integer
numerals, `true`/`false`/`null`. (Fractional and exponent numerals and
`\u` escapes make the model reject where the platform accepts; no claim
input contains them.) `none` models a thrown `SyntaxError`. -/

/-- JSON insignificant whitespace. -/
def skipWs (cs : List Char) : List Char :=
  cs.dropWhile (fun c => c = ' ' ∨ c = '\t' ∨ c = '\n' ∨ c = '\r')

/-- Body of a double-quoted string after the opening quote; returns the
decoded characters and the input after the closing quote. -/
def parseStrBody : Nat → List Char → Option (List Char × List Char)
  | 0, _ => none
  | fuel + 1, cs =>
    match cs with
    | [] => none
    | '"' :: rest => some ([], rest)
    | '\\' :: e :: rest =>
        let cont := fun (c : Char) =>
          (parseStrBody fuel rest).map (fun p => (c :: p.1, p.2))
        if e = '"' then cont '"'
        else if e = '\\' then cont '\\'
        else if e = '/' then cont '/'
        else if e = 'n' then cont '\n'
        else if e = 't' then cont '\t'
        else if e = 'r' then cont '\r'
        else if e = 'b' then cont '\x08'
        else if e = 'f' then cont '\x0c'
        else none
    | c :: rest =>
        if c.toNat < 32 then none
        else (parseStrBody fuel rest).map (fun p => (c :: p.1, p.2))

/-- Leading decimal digits. -/
def parseDigits (cs : List Char) : Option (Nat × List Char) :=
  let ds := cs.takeWhile (fun c => c.isDigit)
  if ds.isEmpty then none
  else some (ds.foldl (fun acc c => acc * 10 + (c.toNat - 48)) 0, cs.dropWhile (fun c => c.isDigit))

/-- Integer numeral with optional leading minus. -/
def parseIntLit (cs : List Char) : Option (Int × List Char) :=
  match cs with
  | '-' :: rest => (parseDigits rest).map (fun p => (-(p.1 : Int), p.2))
  | _ => (parseDigits cs).map (fun p => ((p.1 : Int), p.2))

mutual

/-- One JSON value; returns it and the unconsumed input. -/
def parseVal : Nat → List Char → Option (JVal × List Char)
  | 0, _ => none
  | fuel + 1, cs =>
    match skipWs cs with
    | '"' :: rest => (parseStrBody rest.length rest).map (fun p => (JVal.str ⟨p.1⟩, p.2))
    | '\x7b' :: rest =>
        (match skipWs rest with
         | '\x7d' :: r2 => some (JVal.obj [], r2)
         | _ => (parseFields fuel rest).map (fun p => (JVal.obj p.1, p.2)))
    | '[' :: rest =>
        (match skipWs rest with
         | ']' :: r2 => some (JVal.arr [], r2)
         | _ => (parseItems fuel rest).map (fun p => (JVal.arr p.1, p.2)))
    | 't' :: 'r' :: 'u' :: 'e' :: rest => some (JVal.bool true, rest)
    | 'f' :: 'a' :: 'l' :: 's' :: 'e' :: rest => some (JVal.bool false, rest)
    | 'n' :: 'u' :: 'l' :: 'l' :: rest => some (JVal.null, rest)
    | rest => (parseIntLit rest).map (fun p => (JVal.num p.1, p.2))

/-- Comma-separated array items up to the closing bracket. -/
def parseItems : Nat → List Char → Option (List JVal × List Char)
  | 0, _ => none
  | fuel + 1, cs => do
    let (v, r1) ← parseVal fuel cs
    match skipWs r1 with
    | ',' :: r2 => do
        let (vs, r3) ← parseItems fuel r2
        return (v :: vs, r3)
    | ']' :: r2 => return ([v], r2)
    | _ => none

/-- Comma-separated object members up to the closing brace. -/
def parseFields : Nat → List Char → Option (List (String × JVal) × List Char)
  | 0, _ => none
  | fuel + 1, cs =>
    match skipWs cs with
    | '"' :: rest => do
        let (k, r1) ← parseStrBody rest.length rest
        match skipWs r1 with
        | ':' :: r2 => do
            let (v, r3) ← parseVal fuel r2
            (match skipWs r3 with
             | ',' :: r4 => do
                 let (fs, r5) ← parseFields fuel r4
                 return ((⟨k⟩, v) :: fs, r5)
             | '\x7d' :: r4 => return ([(⟨k⟩, v)], r4)
             | _ => none)
        | _ => none
    | _ => none

end

/-- Model of `JSON.parse(payload)` over characters: a single value with
nothing but whitespace after it. -/
def jsonParse (cs : List Char) : Option JVal :=
  match parseVal (cs.length + 1) cs with
  | some (v, rest) => if (skipWs rest).isEmpty then some v else none
  | none => none

/-! ## Frame decoder (ChatWidget.tsx, stream-reading loop of `sendQuestion`) -/

/-- JS `String.prototype.trim` on the whitespace characters that occur in the
line protocol. -/
def jsTrimList (s : List Char) : List Char :=
  ((s.dropWhile (fun c => c = ' ' ∨ c = '\t' ∨ c = '\n' ∨ c = '\r')).reverse.dropWhile
    (fun c => c = ' ' ∨ c = '\t' ∨ c = '\n' ∨ c = '\r')).reverse

/-- JS trim on strings. -/
def jsTrim (s : String) : String := ⟨jsTrimList s.data⟩

/-- Outcome of handling one complete, already-extracted line. -/
inductive LineResult where
  | skip
  | piece (s : String)
  | done
deriving DecidableEq

/-- Handling of one line in the stream loop: trim; if it starts with `data:`,
drop the prefix and trim again; the sentinel `[DONE]` stops the current call;
otherwise `JSON.parse` the payload and take `content` when it is a nonempty
string (`if (piece)`); parse failures and other lines are skipped. -/
def decodeLine (raw : List Char) : LineResult :=
  let line := jsTrimList raw
  if ("data:".data).isPrefixOf line then
    let payload := jsTrimList (line.drop 5)
    if payload = "[DONE]".data then .done
    else
      match jsonParse payload with
      | some obj =>
          match obj.get "content" with
          | .str s => if s ≠ "" then .piece s else .skip
          | _ => .skip
      | none => .skip
  else .skip

/-- Split a buffer at its first newline: `buffer.indexOf("\n")` plus the two
slices, or `none` when no newline is present. -/
def breakAtNl : List Char → Option (List Char × List Char)
  | [] => none
  | c :: cs =>
      if c = '\n' then some ([], cs)
      else (breakAtNl cs).map (fun p => (c :: p.1, p.2))

/-- Inner `while (nl !== -1)` loop: extract complete lines, handle each, stop
on `[DONE]` (leaving the rest of the buffer for the next call) or when no
newline remains; returns the final buffer and the content pieces in order.
The fuel argument is a modelling artifact: every iteration consumes at least
one character, so any fuel above the buffer length runs the loop to its
actual exit. -/
def drainBuffer : Nat → List Char → List Char × List String
  | 0, buf => (buf, [])
  | fuel + 1, buf =>
    match breakAtNl buf with
    | none => (buf, [])
    | some (line, rest) =>
        match decodeLine line with
        | .done => (rest, [])
        | .piece s =>
            let r := drainBuffer fuel rest
            (r.1, s :: r.2)
        | .skip => drainBuffer fuel rest

/-- One chunk arrival: `buffer += chunk` then the line-draining loop, with
adequate fuel. -/
def feed (buf chunk : List Char) : List Char × List String :=
  drainBuffer ((buf ++ chunk).length + 1) (buf ++ chunk)

/-- Feeding a sequence of chunks from a starting buffer, accumulating all
emitted content pieces. -/
def feedMany (buf : List Char) : List (List Char) → List Char × List String
  | [] => (buf, [])
  | c :: cs =>
      let r := feed buf c
      let r2 := feedMany r.1 cs
      (r2.1, r.2 ++ r2.2)

/-! ## Render scheduler (ChatWidget.tsx, `scheduleFlush`)

The coalescing discipline of `textAccum`/`scheduled`/`requestAnimationFrame`
is modelled as a transition system. A `piece` event is the arrival of one
decoded nonempty content piece (`textAccum += piece; scheduleFlush()`); a
`frame` event is the browser running the pending animation-frame callbacks of
one display refresh interval. The `scheduled` flag coincides with an
animation-frame callback being pending, because the callback is registered
exactly when the flag is raised and clears the flag when it runs. -/

/-- Mutable locals of the streaming loop that the scheduler reads. -/
structure FlushState where
  textAccum : String
  scheduled : Bool
deriving DecidableEq

/-- Events visible to the scheduler. -/
inductive FlushEvent where
  | piece (s : String)
  | frame
deriving DecidableEq

/-- One event step, returning the new state and the UI commits this event
performs (each commit is the value written into the assistant message). -/
def flushStep (st : FlushState) : FlushEvent → FlushState × List String
  | .piece s =>
      if s ≠ "" then ({ textAccum := st.textAccum ++ s, scheduled := true }, [])
      else (st, [])
  | .frame =>
      if st.scheduled then ({ st with scheduled := false }, [st.textAccum])
      else (st, [])

/-- Run of a whole event sequence, pairing each event with the commit it
performs (`none` when the event commits nothing). -/
def flushRun (st : FlushState) : List FlushEvent → FlushState × List (Option String)
  | [] => (st, [])
  | e :: es =>
      let r := flushStep st e
      let r2 := flushRun r.1 es
      (r2.1, (r.2.head?) :: r2.2)

/-- Content pieces appended by a prefix of the event sequence, concatenated. -/
def piecesOf : List FlushEvent → String
  | [] => ""
  | .piece s :: es => s ++ piecesOf es
  | .frame :: es => piecesOf es

/-! ## Chat widget state (ChatWidget.tsx, `sendQuestion` entry and catch) -/

/-- Message roles. -/
inductive Role where
  | user
  | assistant
  | system
deriving DecidableEq

/-- Model of `ChatMessage` (the `meta` payload is irrelevant to the claims). -/
structure ChatMessage where
  id : String
  role : Role
  content : String
deriving DecidableEq

/-- State cells of `ChatWidget` touched by `sendQuestion`. -/
structure ChatState where
  messages : List ChatMessage
  input : String
  loading : Bool
deriving DecidableEq

/-- Synchronous entry of `sendQuestion(q)` up to the fetch: the empty-trim /
in-flight guard, then appending the user and blank assistant messages,
clearing the input and raising `loading`. The returned flag records whether a
network request is issued. -/
def sendQuestionStart (st : ChatState) (q userId assistantId : String) : ChatState × Bool :=
  let question := jsTrim q
  if question = "" ∨ st.loading then (st, false)
  else
    ({ messages := st.messages ++
        [ { id := userId, role := .user, content := question }
        , { id := assistantId, role := .assistant, content := "" } ]
       input := ""
       loading := true }, true)

/-- Catch arm of `sendQuestion`: the error text is written into assistant
messages whose content is still empty; every other message is untouched. -/
def chatCatch (errMsg : String) (msgs : List ChatMessage) : List ChatMessage :=
  msgs.map fun m =>
    if m.role = .assistant ∧ m.content = "" then { m with content := "Error: " ++ errMsg }
    else m

/-- Catch arm of `fetchInsights` (SafetyDashboard.tsx): the functional update
`(s) => s + "\n[insights error] " + msg` applied to the accumulated text. -/
def insightsCatch (errMsg acc : String) : String :=
  acc ++ "\n[insights error] " ++ errMsg

/-! ## META stripping (SafetyDashboard.tsx, `InsightsView`) -/

/-- Pattern match of `pat` starting at position `i` of `s`. -/
def matchAt (pat s : List Char) (i : Nat) : Bool :=
  pat.isPrefixOf (s.drop i)

/-- Largest matching start position strictly below the bound, scanning from
the top. -/
def lastMatchBelow (pat s : List Char) : Nat → Option Nat
  | 0 => none
  | n + 1 => if matchAt pat s n then some n else lastMatchBelow pat s n

/-- JS `s.lastIndexOf(pat)`: `none` models the `-1` result. -/
def lastIndexOf (pat s : List Char) : Option Nat :=
  lastMatchBelow pat s (s.length + 1)

/-- Body computation of `InsightsView`: cut at the last occurrence of
`[[META]]` when present (`idx >= 0`), else display the text unchanged. -/
def stripMeta (text : String) : String :=
  match lastIndexOf ("[[META]]".data) text.data with
  | some i => ⟨text.data.take i⟩
  | none => text


/-- Canonical newline decomposition of a buffer: the complete lines (in
order) and the trailing text after the final newline. Fuel as in
`drainBuffer`. -/
def splitLinesF : Nat → List Char → List (List Char) × List Char
  | 0, buf => ([], buf)
  | fuel + 1, buf =>
    match breakAtNl buf with
    | none => ([], buf)
    | some (line, rest) =>
        let r := splitLinesF fuel rest
        (line :: r.1, r.2)

/-- Newline decomposition with adequate fuel. -/
def splitLines (buf : List Char) : List (List Char) × List Char :=
  splitLinesF (buf.length + 1) buf

/-- Content pieces of a line sequence, as `decodeLine` yields them. -/
def piecesOfLines (ls : List (List Char)) : List String :=
  ls.filterMap fun l => match decodeLine l with | .piece s => some s | _ => none

/-- First chunk of the split-frame example: a complete content line plus the
first half of the next line. -/
def sseChunk1 : List Char := "data: \x7b\"content\":\"ab\"\x7d\nda".data

/-- Second chunk: the rest of the split line. -/
def sseChunk2 : List Char := "ta: \x7b\"content\":\"c\"\x7d\n".data

/-! ## Shared concrete inputs for the claim theorems -/

/-- Seventeen `null` payloads: every normalizer degrades them to its empty
shape, so a cycle over them succeeds with empty data. -/
def sampleResults : FetchResults :=
  ⟨.null, .null, .null, .null, .null, .null, .null, .null, .null,
   .null, .null, .null, .null, .null, .null, .null, .null⟩

/-- State after one successful refresh cycle from mount. -/
def stAfterSuccess : DashState :=
  refreshAllSuccess sampleResults (refreshAllStart initialDashState)

/-- State after a successful cycle followed by a failed one. -/
def stSuccessThenFail : DashState := refreshAllFailure "boom" stAfterSuccess

/-- Flattened numeric matrix exactly as `parseHeatmap` computes it
(`vals.flat()` over the coerced rows). -/
def heatFlat (json : JVal) : List Int :=
  ((if (json.get "values").isArr then (json.get "values").asArr else []).map fun row =>
    if row.isArr then row.asArr.map (fun v => (v.orl (.num 0)).numOr0) else []).flatten

/-- Heatmap payload `values = [[1,2],[3,4]]` with `min`/`max` absent. -/
def heatEx : JVal :=
  .obj [("values", .arr [.arr [.num 1, .num 2], .arr [.num 3, .num 4]])]

/-- Heatmap payload with supplied non-zero `min = 2`, `max = 7`. -/
def heatEx2 : JVal :=
  .obj [("values", .arr [.arr [.num 3]]), ("min", .num 2), ("max", .num 7)]

/-- Heatmap payload with supplied `min = 0`, `max = 5` (a numeric `min` the
source treats as absent because `0` is falsy). -/
def heatEx0 : JVal :=
  .obj [("values", .arr [.arr [.num 3]]), ("min", .num 0), ("max", .num 5)]

/-- A chat transcript whose single assistant message already holds streamed
text when a transport error strikes. -/
def msgsPartial : List ChatMessage := [⟨"a1", .assistant, "partial answer"⟩]

/-! ## Claim theorems -/

/-- Helper: the first-line split is one newline shorter than the buffer. -/
theorem breakAtNl_length {buf line rest : List Char}
    (h : breakAtNl buf = some (line, rest)) : buf.length = line.length + rest.length + 1 := by
  induction buf generalizing line rest with
  | nil => simp [breakAtNl] at h
  | cons c cs ih =>
    by_cases hc : c = '\n'
    · simp [breakAtNl, hc] at h
      simp [← h.1, ← h.2]
    · simp only [breakAtNl, hc, if_false, Option.map_eq_some'] at h
      obtain ⟨⟨l0, r0⟩, h0, h1⟩ := h
      obtain ⟨rfl, rfl⟩ := Prod.mk.injEq .. ▸ h1
      simp [ih h0]
      omega


theorem foldl_min_mem (vs : List Int) (v : Int) : vs.foldl Min.min v ∈ v :: vs := by
  induction vs generalizing v with
  | nil => simp
  | cons w ws ih =>
    rcases min_choice v w with h | h <;>
    · have := ih (Min.min v w)
      rw [h] at this
      simp only [List.foldl_cons]
      rw [h]
      rcases List.mem_cons.mp this with h2 | h2 <;> simp [h2]

theorem foldl_min_le (vs : List Int) (v : Int) :
    ∀ x ∈ v :: vs, vs.foldl Min.min v ≤ x := by
  induction vs generalizing v with
  | nil => intro x hx; simp at hx; simp [hx]
  | cons w ws ih =>
    intro x hx
    simp only [List.foldl_cons]
    rcases List.mem_cons.mp hx with h1 | hx2
    · rw [h1]; exact le_trans (ih (Min.min v w) (Min.min v w) (by simp)) (min_le_left v w)
    · rcases List.mem_cons.mp hx2 with h2 | hx3
      · rw [h2]; exact le_trans (ih (Min.min v w) (Min.min v w) (by simp)) (min_le_right v w)
      · exact ih (Min.min v w) x (by simp [hx3])

theorem foldl_max_mem (vs : List Int) (v : Int) : vs.foldl Max.max v ∈ v :: vs := by
  induction vs generalizing v with
  | nil => simp
  | cons w ws ih =>
    rcases max_choice v w with h | h <;>
    · have := ih (Max.max v w)
      rw [h] at this
      simp only [List.foldl_cons]
      rw [h]
      rcases List.mem_cons.mp this with h2 | h2 <;> simp [h2]

theorem foldl_le_max (vs : List Int) (v : Int) :
    ∀ x ∈ v :: vs, x ≤ vs.foldl Max.max v := by
  induction vs generalizing v with
  | nil => intro x hx; simp at hx; simp [hx]
  | cons w ws ih =>
    intro x hx
    simp only [List.foldl_cons]
    rcases List.mem_cons.mp hx with h1 | hx2
    · rw [h1]; exact le_trans (le_max_left v w) (ih (Max.max v w) (Max.max v w) (by simp))
    · rcases List.mem_cons.mp hx2 with h2 | hx3
      · rw [h2]; exact le_trans (le_max_right v w) (ih (Max.max v w) (Max.max v w) (by simp))
      · exact ih (Max.max v w) x (by simp [hx3])

/-- C7 counterexample: the payload supplies numeric `min = 0` and `max = 5`
with `values = [[3]]`, yet the parser discards both (a supplied `0` is falsy
in the `!json.min || !json.max` test) and derives `min = max = 3` instead. -/
theorem claim_C7_counterexample :
    (parseHeatmap heatEx0).min = 3 ∧ (parseHeatmap heatEx0).max = 3
  ∧ ¬((parseHeatmap heatEx0).min = 0 ∧ (parseHeatmap heatEx0).max = 5) :=
  ⟨rfl, rfl, by intro h; cases h.2⟩

/-- C7 amended: supplied numeric `min`/`max` are used unchanged only when both
are non-zero; when either is absent or zero and the matrix is non-empty, both
are derived as the least and greatest flattened values; when the matrix is
empty and `min`/`max` are absent, `min = max = 0`; and
`values = [[1,2],[3,4]]` with neither supplied yields `min = 1`, `max = 4`. -/
theorem claim_C7_heatmap_minmax :
    ((parseHeatmap heatEx).min = 1 ∧ (parseHeatmap heatEx).max = 4)
  ∧ (∀ json : JVal, json.truthy = true → (json.get "error").truthy = false →
      ((∀ a b : Int, json.get "min" = .num a → json.get "max" = .num b →
          a ≠ 0 → b ≠ 0 →
          (parseHeatmap json).min = a ∧ (parseHeatmap json).max = b)
      ∧ (((json.get "min").truthy = false ∨ (json.get "max").truthy = false) →
          heatFlat json ≠ [] →
            (parseHeatmap json).min ∈ heatFlat json
            ∧ (parseHeatmap json).max ∈ heatFlat json
            ∧ ∀ x ∈ heatFlat json,
                (parseHeatmap json).min ≤ x ∧ x ≤ (parseHeatmap json).max)
      ∧ (heatFlat json = [] → json.get "min" = .undefined → json.get "max" = .undefined →
          (parseHeatmap json).min = 0 ∧ (parseHeatmap json).max = 0))) := by
  refine ⟨⟨rfl, rfl⟩, ?_⟩
  intro json ht he
  refine ⟨?_, ?_, ?_⟩
  · intro a b hmin hmax ha hb
    have htm : (JVal.num a).truthy = true := by simp [JVal.truthy, ha]
    have htM : (JVal.num b).truthy = true := by simp [JVal.truthy, hb]
    simp [parseHeatmap, ht, he, hmin, hmax, htm, htM]
  · intro hor hne
    rcases hflat : heatFlat json with _ | ⟨v, vs⟩
    · exact absurd hflat hne
    · have hfl : (((if (json.get "values").isArr then (json.get "values").asArr else []).map fun row =>
          if row.isArr then row.asArr.map (fun w => (w.orl (.num 0)).numOr0) else []).flatten) = v :: vs := by
        rw [← heatFlat]; exact hflat
      rcases hor with hor | hor <;>
      · simp only [parseHeatmap, ht, he, hor, hfl, Bool.false_eq_true, not_false_eq_true,
          true_or, or_true, if_true, Bool.not_eq_true, if_false]
        exact ⟨foldl_min_mem vs v, foldl_max_mem vs v,
          fun x hx => ⟨foldl_min_le vs v x hx, foldl_le_max vs v x hx⟩⟩
  · intro hflat hmin hmax
    have hfl : (((if (json.get "values").isArr then (json.get "values").asArr else []).map fun row =>
        if row.isArr then row.asArr.map (fun w => (w.orl (.num 0)).numOr0) else []).flatten) = [] := by
      rw [← heatFlat]; exact hflat
    have h1 : (JVal.undefined).truthy = false := rfl
    simp [parseHeatmap, ht, he, hmin, hmax, hfl, h1]

/-- C7 witness: the supplied-and-nonzero branch evaluated on a concrete
payload with `min = 2`, `max = 7`, `values = [[3]]`. -/
theorem claim_C7_heatmap_minmax_witness :
    heatEx2.truthy = true ∧ (heatEx2.get "error").truthy = false
    ∧ ((parseHeatmap heatEx2).min = 2 ∧ (parseHeatmap heatEx2).max = 7) :=
  ⟨rfl, rfl,
    (claim_C7_heatmap_minmax.2 heatEx2 rfl rfl).1 2 7 rfl rfl (by decide) (by decide)⟩

/-- C8: each of the four normalizers maps `null`, `undefined` and an
error-marker object to its empty canonical shape (empty sequence, or the heat
matrix with empty labels, empty values and `min = max = 0`). The normalizers
are total Lean functions, so no input can raise. -/
theorem claim_C8_normalizers_degrade :
    (parseCategoryChart .null = [] ∧ parseCategoryChart .undefined = []
      ∧ parseCategoryChart (.obj [("error", .str "x")]) = [])
  ∧ (parseStackedChart .null = [] ∧ parseStackedChart .undefined = []
      ∧ parseStackedChart (.obj [("error", .str "x")]) = [])
  ∧ (parseMonthlyTrends .null = [] ∧ parseMonthlyTrends .undefined = []
      ∧ parseMonthlyTrends (.obj [("error", .str "x")]) = [])
  ∧ (parseHeatmap .null = ⟨[], [], [], 0, 0, none⟩
      ∧ parseHeatmap .undefined = ⟨[], [], [], 0, 0, none⟩
      ∧ parseHeatmap (.obj [("error", .str "x")]) = ⟨[], [], [], 0, 0, none⟩) :=
  ⟨⟨rfl, rfl, rfl⟩, ⟨rfl, rfl, rfl⟩, ⟨rfl, rfl, rfl⟩, ⟨rfl, rfl, rfl⟩⟩

/-- C10: a question that trims to the empty string, or a send while a request
is in flight, leaves the widget state untouched and issues no request. -/
theorem claim_C10_send_noop (st : ChatState) (q userId assistantId : String)
    (h : jsTrim q = "" ∨ st.loading = true) :
    sendQuestionStart st q userId assistantId = (st, false) := by
  rcases h with h | h <;> simp [sendQuestionStart, h]

/-- C10 witness: a whitespace-only question on an idle widget is a no-op. -/
theorem claim_C10_send_noop_witness :
    (jsTrim "   " = "" ∨ (⟨[], "x", false⟩ : ChatState).loading = true)
    ∧ sendQuestionStart ⟨[], "x", false⟩ "   " "u1" "a1" = (⟨[], "x", false⟩, false) :=
  ⟨by decide, claim_C10_send_noop ⟨[], "x", false⟩ "   " "u1" "a1" (by decide)⟩

/-- C6 (code bug): the loading-reset block at the head of `refreshAll` marks
fourteen slots loading but leaves `hazardsByRisk`, `hazardsByArea`,
`hazardsHeatmap` and `hazVsIncByDept` untouched — evaluated here both on an
arbitrary state and on the concrete post-cycle state, whose four hazards
slots keep `loading = false` while the marked slots flip to `true`. -/
theorem claim_C6_start_misses_hazards_slots :
    (∀ st : DashState,
      (refreshAllStart st).hazardsByRisk = st.hazardsByRisk
      ∧ (refreshAllStart st).hazardsByArea = st.hazardsByArea
      ∧ (refreshAllStart st).hazardsHeatmap = st.hazardsHeatmap
      ∧ (refreshAllStart st).hazVsIncByDept = st.hazVsIncByDept
      ∧ (refreshAllStart st).kpis.loading = true
      ∧ (refreshAllStart st).entriesByCategory.loading = true
      ∧ (refreshAllStart st).incidentHazardTypes.loading = true
      ∧ (refreshAllStart st).monthlyTrends.loading = true
      ∧ (refreshAllStart st).entriesByLocation.loading = true
      ∧ (refreshAllStart st).stackedEntriesByLocation.loading = true
      ∧ (refreshAllStart st).typesByLocation.loading = true
      ∧ (refreshAllStart st).proportionByLocation.loading = true
      ∧ (refreshAllStart st).statusByLocation.loading = true
      ∧ (refreshAllStart st).heatmap.loading = true
      ∧ (refreshAllStart st).incidentsTypes.loading = true
      ∧ (refreshAllStart st).incidentsTopLocations.loading = true
      ∧ (refreshAllStart st).hazardsMonthly.loading = true
      ∧ (refreshAllStart st).hazardsByLocation.loading = true)
  ∧ (refreshAllStart stAfterSuccess).hazardsByRisk.loading = false
  ∧ (refreshAllStart stAfterSuccess).entriesByCategory.loading = true :=
  ⟨fun _ => ⟨rfl, rfl, rfl, rfl, rfl, rfl, rfl, rfl, rfl, rfl, rfl, rfl, rfl,
    rfl, rfl, rfl, rfl, rfl⟩, rfl, rfl⟩

/-- C1 counterexample: after a successful cycle, a failing cycle commits the
slots with `loading = false` and the shared message, but `data` is the spread
of the previous state — non-null — where the claim demands `null`. -/
theorem claim_C1_counterexample :
    (refreshAllFailure "boom" stAfterSuccess).entriesByCategory.loading = false
  ∧ (refreshAllFailure "boom" stAfterSuccess).entriesByCategory.error = some "boom"
  ∧ (refreshAllFailure "boom" stAfterSuccess).entriesByCategory.data ≠ none :=
  ⟨rfl, rfl, by simp [stAfterSuccess, refreshAllFailure, refreshAllSuccess, failSlot]⟩

/-- C1 amended: on a failed cycle every slot commits `loading = false` and the
same error message, with `data` left unchanged from before the cycle (so it is
`null` only when it already was). -/
theorem claim_C1_failure_all_slots (msg : String) (st : DashState) :
    slotViews (refreshAllFailure msg st)
      = (slotViews st).map (fun v => ⟨false, some msg, v.hasData⟩) := rfl

/-- C2 counterexample: the state reached by a successful cycle followed by a
failed one is a settled, reachable state in which a slot holds `data` and
`error` both non-null, contradicting the claimed invariant. -/
theorem claim_C2_counterexample :
    DashReachable stSuccessThenFail
  ∧ stSuccessThenFail.entriesByCategory.loading = false
  ∧ stSuccessThenFail.entriesByCategory.data ≠ none
  ∧ stSuccessThenFail.entriesByCategory.error ≠ none :=
  ⟨DashReachable.step
    (DashReachable.step
      (DashReachable.step DashReachable.init (DashStep.start initialDashState))
      (DashStep.success sampleResults (refreshAllStart initialDashState)))
    (DashStep.failure "boom" stAfterSuccess),
   rfl,
   by simp [stSuccessThenFail, stAfterSuccess, refreshAllFailure, refreshAllSuccess, failSlot],
   by simp [stSuccessThenFail, stAfterSuccess, refreshAllFailure, refreshAllSuccess, failSlot]⟩

/-- C2 amended: after a cycle settles every slot has `loading = false`; on
success every slot holds data and no error (so the claimed xor holds); on
failure every slot holds the shared error while its data flag is exactly what
it was before the cycle — hence `data` and `error` are both non-null
precisely when a failed cycle follows one that had filled the slot. -/
theorem claim_C2_settled_slots (st : DashState) (r : FetchResults) (msg : String) :
    (∀ v ∈ slotViews (refreshAllSuccess r st), v.loading = false ∧ v.error = none ∧ v.hasData = true)
  ∧ (∀ v ∈ slotViews (refreshAllFailure msg st), v.loading = false ∧ v.error = some msg)
  ∧ (slotViews (refreshAllFailure msg st)).map (fun v => v.hasData)
      = (slotViews st).map (fun v => v.hasData) := by
  refine ⟨?_, ?_, rfl⟩
  · intro v hv
    simp only [slotViews, viewOf, refreshAllSuccess, List.mem_cons,
      List.not_mem_nil, or_false] at hv
    rcases hv with rfl|rfl|rfl|rfl|rfl|rfl|rfl|rfl|rfl|rfl|rfl|rfl|rfl|rfl|rfl|rfl|rfl|rfl <;>
      exact ⟨rfl, rfl, rfl⟩
  · intro v hv
    simp only [slotViews, viewOf, refreshAllFailure, failSlot, List.mem_cons,
      List.not_mem_nil, or_false] at hv
    rcases hv with rfl|rfl|rfl|rfl|rfl|rfl|rfl|rfl|rfl|rfl|rfl|rfl|rfl|rfl|rfl|rfl|rfl|rfl <;>
      exact ⟨rfl, rfl⟩

/-- C2 witness: the first slot view of a successful cycle over the sample
payloads is settled with data and no error. -/
theorem claim_C2_settled_slots_witness :
    (⟨false, none, true⟩ : SlotView) ∈ slotViews (refreshAllSuccess sampleResults initialDashState)
    ∧ ((⟨false, none, true⟩ : SlotView).loading = false
        ∧ (⟨false, none, true⟩ : SlotView).error = none
        ∧ (⟨false, none, true⟩ : SlotView).hasData = true) :=
  ⟨by decide,
   (claim_C2_settled_slots initialDashState sampleResults "x").1 ⟨false, none, true⟩ (by decide)⟩


/-- Helper: a `some` result of `lastMatchBelow` is a match position that no
later position below the bound improves on. -/
theorem lastMatchBelow_some (pat s : List Char) :
    ∀ n i, lastMatchBelow pat s n = some i →
      i < n ∧ matchAt pat s i = true ∧ ∀ j, i < j → j < n → matchAt pat s j = false := by
  intro n
  induction n with
  | zero => intro i h; simp [lastMatchBelow] at h
  | succ n ih =>
    intro i h
    by_cases hm : matchAt pat s n
    · simp only [lastMatchBelow, hm, if_true, Option.some.injEq] at h
      refine ⟨?_, ?_, ?_⟩
      · omega
      · rw [← h]; exact hm
      · intro j h1 h2; omega
    · simp only [lastMatchBelow, hm, if_false] at h
      obtain ⟨h1, h2, h3⟩ := ih i h
      refine ⟨by omega, h2, ?_⟩
      intro j hj1 hj2
      by_cases hjn : j = n
      · rw [hjn]; exact Bool.of_not_eq_true hm
      · exact h3 j hj1 (by omega)

/-- Helper: a `none` result of `lastMatchBelow` means no position below the
bound matches. -/
theorem lastMatchBelow_none (pat s : List Char) :
    ∀ n, lastMatchBelow pat s n = none → ∀ j, j < n → matchAt pat s j = false := by
  intro n
  induction n with
  | zero => intro h j hj; omega
  | succ n ih =>
    intro h j hj
    by_cases hm : matchAt pat s n
    · simp [lastMatchBelow, hm] at h
    · simp only [lastMatchBelow, hm, if_false] at h
      by_cases hjn : j = n
      · rw [hjn]; exact Bool.of_not_eq_true hm
      · exact ih h j (by omega)

/-- Helper: a non-empty pattern cannot match at or beyond the end. -/
theorem matchAt_false_of_ge (pat s : List Char) (hp : pat ≠ []) (j : Nat)
    (hj : s.length ≤ j) : matchAt pat s j = false := by
  unfold matchAt
  rw [List.drop_eq_nil_of_le hj]
  cases pat with
  | nil => exact absurd rfl hp
  | cons c cs => rfl

/-- C9: when `[[META]]` does not occur, the insights text is displayed
unchanged; when it occurs, the displayed body is the prefix strictly before
its last occurrence (everything from that occurrence onward is stripped). -/
theorem claim_C9_meta_strip (text : String) :
    ((∀ j, matchAt ("[[META]]".data) text.data j = false) → stripMeta text = text)
  ∧ (∀ i, matchAt ("[[META]]".data) text.data i = true →
      ∃ k, matchAt ("[[META]]".data) text.data k = true
        ∧ (∀ j, matchAt ("[[META]]".data) text.data j = true → j ≤ k)
        ∧ stripMeta text = ⟨text.data.take k⟩) := by
  constructor
  · intro hno
    cases h : lastIndexOf ("[[META]]".data) text.data with
    | none => simp [stripMeta, h]
    | some i =>
      have := (lastMatchBelow_some _ _ _ _ h).2.1
      rw [hno i] at this
      cases this
  · intro i hi
    have hilen : i < text.data.length := by
      by_contra hge
      have := matchAt_false_of_ge ("[[META]]".data) text.data (by decide) i (by omega)
      rw [this] at hi; cases hi
    cases h : lastIndexOf ("[[META]]".data) text.data with
    | none =>
      have := lastMatchBelow_none _ _ _ h i (by omega)
      rw [this] at hi; cases hi
    | some k =>
      obtain ⟨h1, h2, h3⟩ := lastMatchBelow_some _ _ _ _ h
      refine ⟨k, h2, ?_, by simp [stripMeta, h]⟩
      intro j hj
      by_contra hgt
      have hjlen : j < text.data.length := by
        by_contra hge
        have := matchAt_false_of_ge ("[[META]]".data) text.data (by decide) j (by omega)
        rw [this] at hj; cases hj
      have := h3 j (by omega) (by omega)
      rw [this] at hj; cases hj

/-- C9 witness: on `"abc[[META]]xyz"` the marker matches at position 3 and
the displayed body is `"abc"`. -/
theorem claim_C9_meta_strip_witness :
    matchAt ("[[META]]".data) ("abc[[META]]xyz".data) 3 = true
    ∧ ∃ k, matchAt ("[[META]]".data) ("abc[[META]]xyz".data) k = true
        ∧ (∀ j, matchAt ("[[META]]".data) ("abc[[META]]xyz".data) j = true → j ≤ k)
        ∧ stripMeta "abc[[META]]xyz" = ⟨("abc[[META]]xyz".data).take k⟩ :=
  ⟨by decide, (claim_C9_meta_strip "abc[[META]]xyz").2 3 (by decide)⟩


/-- Helper: running any event sequence leaves `textAccum` equal to the prior
text followed by every piece appended, in order. -/
theorem flushRun_textAccum : ∀ (es : List FlushEvent) (st : FlushState),
    (flushRun st es).1.textAccum = st.textAccum ++ piecesOf es := by
  intro es
  induction es with
  | nil => intro st; simp [flushRun, piecesOf, String.append_empty]
  | cons e es ih =>
    intro st
    cases e with
    | piece s =>
      by_cases hs : s = ""
      · simp [flushRun, flushStep, hs, piecesOf, ih, String.empty_append]
      · simp [flushRun, flushStep, hs, piecesOf, ih, String.append_assoc]
    | frame =>
      by_cases hb : st.scheduled
      · simp [flushRun, flushStep, hb, piecesOf, ih]
      · simp [flushRun, flushStep, hb, piecesOf, ih]

/-- C4: over any event sequence the scheduler emits at most one commit slot
per event, never commits at a piece-arrival event (so at most one UI commit
happens per display refresh interval, the `frame` events), and every value it
does commit is the entire accumulated text at that moment — the prior text
followed by every piece appended up to and including that event, never a
superseded intermediate value. -/
theorem claim_C4_render_scheduler : ∀ (st : FlushState) (es : List FlushEvent),
    (flushRun st es).2.length = es.length
  ∧ (∀ i s, es.getD i .frame = .piece s → (flushRun st es).2.getD i none = none)
  ∧ (∀ i c, (flushRun st es).2.getD i none = some c →
      c = st.textAccum ++ piecesOf (es.take (i + 1))) := by
  intro st es
  induction es generalizing st with
  | nil =>
    refine ⟨rfl, fun i s h => ?_, fun i c h => ?_⟩
    · simp [flushRun]
    · simp [flushRun] at h
  | cons e es ih =>
    obtain ⟨ih1, ih2, ih3⟩ := ih (flushStep st e).1
    refine ⟨by simp [flushRun, ih1], ?_, ?_⟩
    · intro i s h
      cases i with
      | zero =>
        cases e with
        | piece t =>
          by_cases ht : t = "" <;> simp [flushRun, flushStep, ht]
        | frame => simp at h
      | succ i =>
        simp only [List.getD_cons_succ] at h
        simp only [flushRun, List.getD_cons_succ]
        exact ih2 i s h
    · intro i c h
      cases i with
      | zero =>
        cases e with
        | piece t =>
          by_cases ht : t = "" <;> simp [flushRun, flushStep, ht] at h
        | frame =>
          by_cases hb : st.scheduled
          · simp only [flushRun, flushStep, hb, if_true, List.head?, List.getD_cons_zero] at h
            simp only [List.take_succ_cons, List.take_zero, piecesOf, String.append_empty]
            exact (Option.some.injEq _ _ ▸ h).symm
          · simp [flushRun, flushStep, hb] at h
      | succ i =>
        simp only [flushRun, List.getD_cons_succ] at h
        have := ih3 i c h
        rw [this]
        cases e with
        | piece t =>
          by_cases ht : t = ""
          · simp [flushStep, ht, piecesOf, String.empty_append]
          · simp [flushStep, ht, piecesOf, String.append_assoc]
        | frame =>
          by_cases hb : st.scheduled
          · simp [flushStep, hb, piecesOf]
          · simp [flushStep, hb, piecesOf]

/-- C4 witness: in the trace piece "hi" then frame, the frame commits exactly
the accumulated "hi". -/
theorem claim_C4_render_scheduler_witness :
    (flushRun ⟨"", false⟩ [.piece "hi", .frame]).2.getD 1 none = some "hi"
    ∧ "hi" = (FlushState.mk "" false).textAccum
        ++ piecesOf ([FlushEvent.piece "hi", FlushEvent.frame].take (1 + 1)) :=
  ⟨by decide,
   (claim_C4_render_scheduler ⟨"", false⟩ [.piece "hi", .frame]).2.2 1 "hi" (by decide)⟩


/-- C5 counterexample: a transport error after frames were committed leaves
the chat transcript byte-for-byte unchanged — the handler rewrites only
assistant messages whose content is still empty, so no error annotation is
appended to the accumulated text (which does not mention the error at all). -/
theorem claim_C5_counterexample :
    chatCatch "boom" msgsPartial = msgsPartial
    ∧ lastIndexOf ("boom".data) ("partial answer".data) = none := by
  constructor
  · decide
  · decide

/-- C5 amended: the insights session appends the visible annotation
`\n[insights error] <msg>` to the accumulated text, preserving it as a strict
prefix; the chat session instead writes `Error: <msg>` only into assistant
messages whose content is still empty, and leaves every message that already
holds accumulated text untouched (progress preserved, no annotation). -/
theorem claim_C5_stream_error :
    (∀ msg acc : String,
        insightsCatch msg acc = (acc ++ "\n") ++ ("[insights error]" ++ (" " ++ msg))
        ∧ acc.data <+: (insightsCatch msg acc).data
        ∧ (insightsCatch msg acc).length = acc.length + (18 + msg.length))
  ∧ (∀ (msg : String) (msgs : List ChatMessage),
        (chatCatch msg msgs).length = msgs.length
        ∧ (∀ m ∈ msgs, m.content ≠ "" → m ∈ chatCatch msg msgs)
        ∧ (∀ m ∈ msgs, m.role = .assistant → m.content = "" →
            ({ m with content := "Error: " ++ msg } : ChatMessage) ∈ chatCatch msg msgs)) := by
  constructor
  · intro msg acc
    refine ⟨?_, ?_, ?_⟩
    · show acc ++ "\n[insights error] " ++ msg = _
      rw [String.append_assoc, String.append_assoc]
      congr 1
    · rw [insightsCatch, String.data_append, String.data_append]
      rw [List.append_assoc]
      exact List.prefix_append _ _
    · have h18 : ("\n[insights error] " : String).length = 18 := by decide
      simp [insightsCatch, String.length_append, h18]
      omega
  · intro msg msgs
    refine ⟨by simp [chatCatch], ?_, ?_⟩
    · intro m hm hc
      refine List.mem_map.mpr ⟨m, hm, ?_⟩
      simp [hc]
    · intro m hm hr hc
      refine List.mem_map.mpr ⟨m, hm, ?_⟩
      simp [hr, hc]

/-- C5 witness: a still-empty assistant message receives the error text. -/
theorem claim_C5_stream_error_witness :
    (⟨"a2", Role.assistant, ""⟩ : ChatMessage) ∈ [(⟨"a2", Role.assistant, ""⟩ : ChatMessage)]
    ∧ ({ (⟨"a2", Role.assistant, ""⟩ : ChatMessage) with content := "Error: " ++ "boom" }
        : ChatMessage) ∈ chatCatch "boom" [⟨"a2", .assistant, ""⟩] :=
  ⟨by decide,
   (claim_C5_stream_error.2 "boom" [⟨"a2", .assistant, ""⟩]).2.2
     ⟨"a2", Role.assistant, ""⟩ (by decide) rfl rfl⟩


/-- Helper: a first-newline split of `a` is preserved when more text is
appended after it. -/
theorem breakAtNl_append_some {a : List Char} {l r : List Char} (b : List Char)
    (h : breakAtNl a = some (l, r)) : breakAtNl (a ++ b) = some (l, r ++ b) := by
  induction a generalizing l r with
  | nil => simp [breakAtNl] at h
  | cons c cs ih =>
    by_cases hc : c = '\n'
    · simp [breakAtNl, hc] at h ⊢
      exact ⟨h.1, by rw [← h.2]⟩
    · simp only [breakAtNl, hc, if_false, Option.map_eq_some'] at h
      obtain ⟨⟨l0, r0⟩, h0, h1⟩ := h
      obtain ⟨rfl, rfl⟩ := Prod.mk.injEq .. ▸ h1
      rw [List.cons_append]
      simp only [breakAtNl, hc, if_false, ih h0, Option.map_some']

/-- Helper: when `a` holds no newline, the first line of `a ++ b` is `a`
prepended to the first line of `b`. -/
theorem breakAtNl_append_none {a : List Char} (b : List Char)
    (h : breakAtNl a = none) :
    breakAtNl (a ++ b) = (breakAtNl b).map (fun p => (a ++ p.1, p.2)) := by
  induction a with
  | nil => simp [Option.map_id]
  | cons c cs ih =>
    by_cases hc : c = '\n'
    · simp [breakAtNl, hc] at h
    · simp only [breakAtNl, hc, if_false, Option.map_eq_none'] at h
      rw [List.cons_append]
      simp only [breakAtNl, hc, if_false, ih h]
      cases breakAtNl b with
      | none => rfl
      | some p => simp

/-- Helper: the fuel is irrelevant once it exceeds the buffer length. -/
theorem splitLinesF_congr : ∀ f1 f2 buf, buf.length < f1 → buf.length < f2 →
    splitLinesF f1 buf = splitLinesF f2 buf := by
  intro f1
  induction f1 with
  | zero => intro f2 buf h1 h2; omega
  | succ f1 ih =>
    intro f2 buf h1 h2
    cases f2 with
    | zero => omega
    | succ f2 =>
      cases hb : breakAtNl buf with
      | none => simp only [splitLinesF, hb]
      | some p =>
        obtain ⟨line, rest⟩ := p
        have hlen := breakAtNl_length hb
        simp only [splitLinesF, hb]
        rw [ih f2 rest (by omega) (by omega)]

/-- Helper: a buffer with no newline has no complete line. -/
theorem splitLines_break_none {buf : List Char} (hb : breakAtNl buf = none) :
    splitLines buf = ([], buf) := by
  show splitLinesF (buf.length + 1) buf = ([], buf)
  simp only [splitLinesF, hb]

/-- Helper: unfolding one line of the decomposition. -/
theorem splitLines_break_some {buf line rest : List Char}
    (hb : breakAtNl buf = some (line, rest)) :
    splitLines buf = (line :: (splitLines rest).1, (splitLines rest).2) := by
  have hlen := breakAtNl_length hb
  show splitLinesF (buf.length + 1) buf = _
  simp only [splitLinesF, hb]
  rw [splitLinesF_congr buf.length (rest.length + 1) rest (by omega) (by omega)]
  rfl

/-- Helper: when no complete line is the `[DONE]` sentinel, the drain loop
consumes exactly the complete lines, leaves the trailing partial line in the
buffer, and emits the content pieces of those lines in order. -/
theorem drainBuffer_noDone : ∀ fuel buf, buf.length < fuel →
    (∀ l ∈ (splitLines buf).1, decodeLine l ≠ .done) →
    drainBuffer fuel buf = ((splitLines buf).2, piecesOfLines (splitLines buf).1) := by
  intro fuel
  induction fuel with
  | zero => intro buf h; omega
  | succ fuel ih =>
    intro buf h hnd
    cases hb : breakAtNl buf with
    | none =>
      rw [splitLines_break_none hb]
      simp [drainBuffer, hb, piecesOfLines]
    | some p =>
      obtain ⟨line, rest⟩ := p
      have hlen := breakAtNl_length hb
      rw [splitLines_break_some hb] at hnd ⊢
      have hline : decodeLine line ≠ .done := hnd line (by simp)
      have hrest : ∀ l ∈ (splitLines rest).1, decodeLine l ≠ .done :=
        fun l hl => hnd l (by simp [hl])
      have hrec := ih rest (by omega) hrest
      cases hd : decodeLine line with
      | done => exact absurd hd hline
      | piece s =>
        simp only [drainBuffer, hb, hd, hrec, piecesOfLines, List.filterMap_cons]
      | skip =>
        simp only [drainBuffer, hb, hd, hrec, piecesOfLines, List.filterMap_cons]

/-- Helper: line decomposition of a concatenation — the trailing partial text
of `a` is prepended to `b` and split there. -/
theorem splitLines_append : ∀ fuel a, a.length < fuel → ∀ b,
    splitLines (a ++ b)
      = ((splitLines a).1 ++ (splitLines ((splitLines a).2 ++ b)).1,
         (splitLines ((splitLines a).2 ++ b)).2) := by
  intro fuel
  induction fuel with
  | zero => intro a h; omega
  | succ fuel ih =>
    intro a h b
    cases hb : breakAtNl a with
    | none =>
      rw [splitLines_break_none hb]
      simp
    | some p =>
      obtain ⟨l, r⟩ := p
      have hlen := breakAtNl_length hb
      rw [splitLines_break_some hb,
        splitLines_break_some (breakAtNl_append_some b hb),
        ih r (by omega) b]
      simp

/-- C3: in the absence of the `[DONE]` sentinel, feeding two chunks emits
exactly the frames of the concatenated text with the text after the final
newline retained in the buffer — so a split `data: {"content":...}` line
decodes as if it had arrived whole; and the concrete split example yields
exactly the contents "ab" then "c". -/
theorem claim_C3_decoder_buffering :
    (∀ st c1 c2 : List Char,
        (∀ l ∈ (splitLines (st ++ c1 ++ c2)).1, decodeLine l ≠ .done) →
        feedMany st [c1, c2] = feedMany st [c1 ++ c2]
        ∧ (feed st c1).1 = (splitLines (st ++ c1)).2)
  ∧ feedMany [] [sseChunk1, sseChunk2] = ([], ["ab", "c"]) := by
  constructor
  · intro st c1 c2 hnd
    have hsplit := splitLines_append ((st ++ c1).length + 1) (st ++ c1) (by omega) c2
    have hnd1 : ∀ l ∈ (splitLines (st ++ c1)).1, decodeLine l ≠ .done := by
      intro l hl
      apply hnd
      rw [hsplit]
      exact List.mem_append_left _ hl
    have hnd2 : ∀ l ∈ (splitLines ((splitLines (st ++ c1)).2 ++ c2)).1, decodeLine l ≠ .done := by
      intro l hl
      apply hnd
      rw [hsplit]
      exact List.mem_append_right _ hl
    have hf1 : feed st c1 = ((splitLines (st ++ c1)).2, piecesOfLines (splitLines (st ++ c1)).1) :=
      drainBuffer_noDone _ _ (by omega) hnd1
    have hf2 : feed (splitLines (st ++ c1)).2 c2
        = ((splitLines ((splitLines (st ++ c1)).2 ++ c2)).2,
           piecesOfLines (splitLines ((splitLines (st ++ c1)).2 ++ c2)).1) :=
      drainBuffer_noDone _ _ (by omega) hnd2
    have hftot : feed st (c1 ++ c2)
        = ((splitLines (st ++ c1 ++ c2)).2, piecesOfLines (splitLines (st ++ c1 ++ c2)).1) := by
      have hassoc : st ++ (c1 ++ c2) = st ++ c1 ++ c2 := (List.append_assoc st c1 c2).symm
      show drainBuffer ((st ++ (c1 ++ c2)).length + 1) (st ++ (c1 ++ c2)) = _
      rw [hassoc]
      exact drainBuffer_noDone _ _ (by omega) hnd
    refine ⟨?_, by rw [hf1]⟩
    simp only [feedMany, hf1, hf2, hftot, hsplit, piecesOfLines, List.filterMap_append,
      List.append_nil]
  · decide

/-- C3 witness: the general equivalence applied to the concrete split
example, whose lines contain no `[DONE]`. -/
theorem claim_C3_decoder_buffering_witness :
    (∀ l ∈ (splitLines (([] : List Char) ++ sseChunk1 ++ sseChunk2)).1, decodeLine l ≠ .done)
    ∧ (feedMany [] [sseChunk1, sseChunk2] = feedMany [] [sseChunk1 ++ sseChunk2]
       ∧ (feed [] sseChunk1).1 = (splitLines (([] : List Char) ++ sseChunk1)).2) :=
  ⟨by decide, claim_C3_decoder_buffering.1 [] sseChunk1 sseChunk2 (by decide)⟩

end EPCL
